import Mathlib

/-
Verification of the yanductor inventory backend (package yanductor):
the load-or-fallback orchestration (Load / Reload / loadRemote / loadLocal /
cacheExpired / saveCache / New) and the inventory parser (parseData), embedded
shallowly from the Go source.  JSON documents decoded into a Go
map[string]interface{} are modelled as association lists of key/value pairs;
a list fixes one traversal order of the map, and since Go map iteration order
is unspecified, every permutation of the entries is a legitimate traversal of
the same document.  Go map lookup is first-match lookup (keys are unique in a
real Go map, so this agrees with map semantics on its image).
-/

namespace Yanductor

/-- JSON values as they appear after Go's json.Unmarshal into interface{}:
strings, numbers, booleans, null, arrays, and objects (ordered field lists
standing for Go maps). -/
inductive Json where
  | str (s : String)
  | num (n : Int)
  | jbool (b : Bool)
  | null
  | arr (xs : List Json)
  | obj (fields : List (String × Json))

/-- First-match association-list lookup, modelling Go map indexing `m[k]`. -/
def alook {α : Type} (key : String) : List (String × α) → Option α
  | [] => none
  | p :: rest => if p.1 = key then some p.2 else alook key rest

/-- store.Host as used by the backend: FQDN, GroupID, DatacenterID. -/
structure Host where
  FQDN : String
  GroupID : String
  DatacenterID : String
deriving DecidableEq, Repr

/-- store.Group as used by the backend: Name, ParentID, and the back-reference
sequence of hosts belonging to the group. -/
structure Group where
  Name : String
  ParentID : String
  Hosts : List Host
deriving DecidableEq, Repr

/-- store.Datacenter as used by the backend. -/
structure Datacenter where
  Name : String
deriving DecidableEq, Repr

/-- The mutable collections of the Yanductor struct that parseData touches:
hosts, groups, datacenters and the child-to-parent map (an association list
with first-insert-wins discipline, mirroring the Go map updated only when the
key is absent). -/
structure YState where
  hosts : List Host
  groups : List Group
  datacenters : List Datacenter
  parentMap : List (String × String)
deriving DecidableEq, Repr

/-- The state right after parseData's reset of the four collections. -/
def emptyY : YState := ⟨[], [], [], []⟩

/-- Embeds the Go helper `contains(slice []*store.Datacenter, item string)`. -/
def contains : List Datacenter → String → Bool
  | [], _ => false
  | s :: rest, item => if s.Name = item then true else contains rest item

/-- The datacenter attribute of a hostvars entry:
`dc, dcOk := hostInfo["dc"].(string); if !dcOk { dc = "" }`. -/
def dcOfHostInfo (hostInfo : List (String × Json)) : String :=
  match alook "dc" hostInfo with
  | some (.str s) => s
  | _ => ""

/-- One step of the children loop: record `parentMap[child] = group` only when
the child is a string and has no parent recorded yet. -/
def processChild (group : String) (pm : List (String × String)) (child : Json) :
    List (String × String) :=
  match child with
  | .str c =>
    match alook c pm with
    | some _ => pm
    | none => pm ++ [(c, group)]
  | _ => pm

/-- One step of the hosts loop of a group: skip non-string entries and host
names whose hostvars entry is absent or not an object; otherwise build the
Host record, append it to the flat host list and the group's back-reference
list, and insert its datacenter if not already present. -/
def processHost (hv : List (String × Json)) (group : String)
    (acc : YState × List Host) (hostJ : Json) : YState × List Host :=
  match hostJ with
  | .str hostName =>
    match alook hostName hv with
    | some (.obj hostInfo) =>
      let dc := dcOfHostInfo hostInfo
      let hostObj : Host := { FQDN := hostName, GroupID := group, DatacenterID := dc }
      let st := acc.1
      ({ st with
          hosts := st.hosts ++ [hostObj],
          datacenters :=
            if contains st.datacenters dc then st.datacenters
            else st.datacenters ++ [{ Name := dc }] },
        acc.2 ++ [hostObj])
    | _ => acc
  | _ => acc

/-- One iteration of parseData's main loop over a top-level key: skip "_meta"
and non-object descriptors; process the optional "children" list into the
parent map, read this group's ParentID from the parent map as built so far,
then process the optional "hosts" list and append the Group record. -/
def processGroup (hv : List (String × Json)) (st : YState)
    (entry : String × Json) : YState :=
  if entry.1 = "_meta" then st
  else
    match entry.2 with
    | .obj groupMap =>
      let pm :=
        match alook "children" groupMap with
        | some (.arr children) => children.foldl (processChild entry.1) st.parentMap
        | _ => st.parentMap
      let parentID := (alook entry.1 pm).getD ""
      let st1 : YState := { st with parentMap := pm }
      let res :=
        match alook "hosts" groupMap with
        | some (.arr hs) => hs.foldl (processHost hv entry.1) (st1, [])
        | _ => (st1, [])
      { res.1 with
          groups := res.1.groups ++ [{ Name := entry.1, ParentID := parentID, Hosts := res.2 }] }
    | _ => st

/-- Embeds parseData.  The input is `none` when json.Unmarshal into a
top-level map fails (invalid JSON or non-object top level), in which case the
function returns the unmarshal error before the collections are reset.
Otherwise the four collections are reset, the _meta section and its hostvars
table are extracted (either missing or mis-shaped is a fatal format error,
returned with the collections already reset), and the main loop runs over the
top-level entries in the given traversal order. -/
def parseData (st : YState) (data : Option (List (String × Json))) :
    Except String Unit × YState :=
  match data with
  | none => (.error "invalid JSON", st)
  | some rawData =>
    match alook "_meta" rawData with
    | some (.obj meta) =>
      match alook "hostvars" meta with
      | some (.obj hv) => (.ok (), rawData.foldl (processGroup hv) emptyY)
      | _ => (.error "invalid data format: missing hostvars section", emptyY)
    | _ => (.error "invalid data format: missing _meta section", emptyY)

/-- Raw document bytes, abstracted to their json.Unmarshal outcome: `none`
stands for bytes that do not decode into a top-level mapping. -/
abbrev GoData := Option (List (String × Json))

/-- Outcome of `os.Stat` on the cache file, as seen by cacheExpired. -/
inductive StatResult where
  | notFound
  | otherErr
  | ok (modTime : Int)
deriving DecidableEq, Repr

/-- Observable I/O events performed by the loader: the HTTP GET, the cache
stat, the cache read, and the two steps of saveCache (MkdirAll, WriteFile). -/
inductive Ev where
  | netGet
  | fsStat
  | fsRead
  | fsMkdir
  | fsWrite
deriving DecidableEq, Repr

/-- The external world one Load/Reload call observes: the stat outcome and
current time for cacheExpired, the outcome of the single http.Get (`none` is
a transport error, otherwise the status code and the io.ReadAll outcome of
the body), the outcome of os.ReadFile on the cache file, and whether
saveCache (MkdirAll plus WriteFile) succeeds. -/
structure Env where
  stat : StatResult
  now : Int
  fetch : Option (Nat × Except Unit GoData)
  readCache : Except Unit GoData
  writeOk : Bool

/-- Result of a loader call: the I/O events performed in order, the returned
error value, and the instance state afterwards. -/
structure Out where
  evs : List Ev
  res : Except String Unit
  st : YState
deriving Repr

/-- Embeds cacheExpired: on a stat error it returns os.IsNotExist(err), i.e.
true exactly for a not-found error; on success it returns whether the
modification time plus the TTL is strictly before the current time. -/
def cacheExpired (ttl : Int) (env : Env) : Bool :=
  match env.stat with
  | .notFound => true
  | .otherErr => false
  | .ok m => decide (m + ttl < env.now)

/-- Embeds loadLocal: read the cache file (its one fsRead event), propagate a
read error, otherwise parse the bytes in place. -/
def loadLocal (env : Env) (st : YState) : Out :=
  match env.readCache with
  | .error _ => { evs := [.fsRead], res := .error "cache read error", st := st }
  | .ok data =>
    { evs := [.fsRead], res := (parseData st data).1, st := (parseData st data).2 }

/-- Embeds loadRemote: one http.Get; a transport error, a non-200 status, or
a body read error is returned as is; otherwise the body is parsed (a parse
error is returned with the state as parseData left it), and on parse success
saveCache runs (MkdirAll then WriteFile, whose failure is the returned
error). -/
def loadRemote (env : Env) (st : YState) : Out :=
  match env.fetch with
  | none => { evs := [.netGet], res := .error "transport error", st := st }
  | some (status, body) =>
    if status ≠ 200 then
      { evs := [.netGet], res := .error "bad status code", st := st }
    else
      match body with
      | .error _ => { evs := [.netGet], res := .error "body read error", st := st }
      | .ok data =>
        match parseData st data with
        | (.error e, st1) => { evs := [.netGet], res := .error e, st := st1 }
        | (.ok _, st1) =>
          if env.writeOk then
            { evs := [.netGet, .fsMkdir, .fsWrite], res := .ok (), st := st1 }
          else
            { evs := [.netGet, .fsMkdir, .fsWrite], res := .error "cache write error", st := st1 }

/-- Embeds Reload: run loadRemote; if it returned any error, fall back to
loadLocal on the state loadRemote left behind and return loadLocal's result;
otherwise return success. -/
def Reload (env : Env) (st : YState) : Out :=
  match (loadRemote env st).res with
  | .error _ =>
    { evs := (loadRemote env st).evs ++ (loadLocal env (loadRemote env st).st).evs,
      res := (loadLocal env (loadRemote env st).st).res,
      st := (loadLocal env (loadRemote env st).st).st }
  | .ok _ => loadRemote env st

/-- Embeds Load: stat the cache file (one fsStat event) via cacheExpired;
delegate to Reload when expired, else to loadLocal. -/
def Load (ttl : Int) (env : Env) (st : YState) : Out :=
  if cacheExpired ttl env then
    { evs := .fsStat :: (Reload env st).evs,
      res := (Reload env st).res, st := (Reload env st).st }
  else
    { evs := .fsStat :: (loadLocal env st).evs,
      res := (loadLocal env st).res, st := (loadLocal env st).st }

/-- Embeds strings.Join. -/
def goStringsJoin : List String → String → String
  | [], _ => ""
  | [s], _ => s
  | s :: rest, sep => s ++ sep ++ goStringsJoin rest sep

/-- Models path.Join for an already-clean directory component: an empty
directory gives the bare file name, otherwise the two parts are joined with
one slash. -/
def pathJoin (dir file : String) : String :=
  if dir = "" then file else dir ++ "/" ++ file

/-- Embeds cacheFilename: path.Join of the cache directory with
"yanductor_cache_" followed by the workgroup names joined by "_" and
".json". -/
def cacheFilename (cacheDir : String) (workgroupNames : List String) : String :=
  pathJoin cacheDir ("yanductor_cache_" ++ goStringsJoin workgroupNames "_" ++ ".json")

/-- Characters matched by \s in a Go regular expression. -/
def goWS (c : Char) : Bool :=
  c = ' ' || c = '\t' || c = '\n' || c = '\x0c' || c = '\r'

/-- Splits a character list at every comma, keeping empty chunks. -/
def splitOnComma : List Char → List (List Char)
  | [] => [[]]
  | c :: rest =>
    if c = ',' then [] :: splitOnComma rest
    else
      match splitOnComma rest with
      | [] => [[c]]
      | t :: ts => (c :: t) :: ts

/-- Drops leading Go whitespace. -/
def trimL (l : List Char) : List Char := l.dropWhile goWS

/-- Drops trailing Go whitespace. -/
def trimR (l : List Char) : List Char := (l.reverse.dropWhile goWS).reverse

/-- Trims the chunks after the first: a middle chunk loses whitespace on both
sides (it is flanked by separators), the last chunk only on the left. -/
def trimMidLast : List (List Char) → List (List Char)
  | [] => []
  | [c] => [trimL c]
  | c :: rest => trimL (trimR c) :: trimMidLast rest

/-- Embeds regexp.MustCompile of the pattern staying for optional spaces, a
comma, optional spaces - then Split(s, -1): every comma together with the
whitespace run on each side of it is a separator; whitespace not adjacent to
a comma stays inside the token. -/
def wgSplit (s : String) : List String :=
  match splitOnComma s.toList with
  | [] => [""]
  | [c] => [String.mk c]
  | c :: rest => String.mk (trimR c) :: (trimMidLast rest).map String.mk

/-- Result of construction: the I/O events performed and either a
configuration/load error or the workgroup names plus the loaded state. -/
structure NewOut where
  evs : List Ev
  res : Except String (List String × YState)

/-- Embeds New: check the work_groups option (missing or empty is a fatal
configuration error, raised before any I/O), split it into workgroup names,
check that the url option exists (missing is a fatal configuration error
before any I/O; note an empty url value passes), then run Load on a fresh
instance and wrap its error if any. -/
def NewY (opts : List (String × String)) (ttl : Int) (env : Env) : NewOut :=
  match alook "work_groups" opts with
  | none => { evs := [], res := .error "yanductor backend workgroups are not configured" }
  | some wgString =>
    if wgString = "" then
      { evs := [], res := .error "yanductor backend workgroups are not configured" }
    else
      match alook "url" opts with
      | none => { evs := [], res := .error "yanductor backend API URL is not configured" }
      | some _ =>
        match (Load ttl env emptyY).res with
        | .error e =>
          { evs := (Load ttl env emptyY).evs, res := .error ("error loading data: " ++ e) }
        | .ok _ =>
          { evs := (Load ttl env emptyY).evs,
            res := .ok (wgSplit wgString, (Load ttl env emptyY).st) }

/-- Inserts a string at the end of the accumulator unless already present:
the step the code performs on the datacenter list for each produced host. -/
def insertS (acc : List String) (s : String) : List String :=
  if s ∈ acc then acc else acc ++ [s]

/-- Left fold of insertS over a list: the first-occurrence deduplication the
code computes incrementally. -/
def dedupF (l : List String) : List String := l.foldl insertS []

/-- Specification-style first-occurrence deduplication: keep each element's
first occurrence and drop all later ones. -/
def firstOccurrences : List String → List String
  | [] => []
  | a :: l => a :: firstOccurrences (l.filter (fun b => decide (b ≠ a)))
termination_by l => l.length
decreasing_by
  simp_wf
  exact Nat.lt_succ_of_le (List.length_filter_le _ _)

/-- The sum of a separator-prefixed copy of every element: the tail part of a
joined string. -/
def sepJoin (sep : String) : List String → String
  | [] => ""
  | a :: as => sep ++ a ++ sepJoin sep as

/-- Scenario A document with the traversal order g1 before g2. -/
def docA : List (String × Json) :=
  [("_meta", .obj [("hostvars", .obj [("a.x", .obj [("dc", .str "dc1")])])]),
   ("g1", .obj [("hosts", .arr [.str "a.x"]), ("children", .arr [.str "g2"])]),
   ("g2", .obj [("hosts", .arr [])])]

/-- The same Scenario A document with the traversal order g2 before g1 (Go
map iteration order is unspecified, so both orders are legitimate traversals
of the same JSON object). -/
def docARev : List (String × Json) :=
  [("_meta", .obj [("hostvars", .obj [("a.x", .obj [("dc", .str "dc1")])])]),
   ("g2", .obj [("hosts", .arr [])]),
   ("g1", .obj [("hosts", .arr [.str "a.x"]), ("children", .arr [.str "g2"])])]

/-- A minimal well-formed document: a _meta section with an empty hostvars
table and no groups. -/
def docMin : List (String × Json) := [("_meta", .obj [("hostvars", .obj [])])]

lemma loadLocal_evs (env : Env) (st : YState) : (loadLocal env st).evs = [Ev.fsRead] := by
  unfold loadLocal
  rcases env.readCache with e | d <;> rfl

lemma fsRead_not_loadRemote (env : Env) (st : YState) :
    Ev.fsRead ∉ (loadRemote env st).evs := by
  unfold loadRemote
  rcases env.fetch with _ | ⟨status, body⟩
  · simp
  · dsimp only
    split
    · simp
    · rcases body with e | data
      · simp
      · dsimp only
        rcases hp : parseData st data with ⟨r, st1⟩
        rcases r with e | u
        · simp
        · dsimp only
          split <;> simp

lemma Reload_of_error (env : Env) (st : YState) (e : String)
    (h : (loadRemote env st).res = Except.error e) :
    Reload env st =
      { evs := (loadRemote env st).evs ++ (loadLocal env (loadRemote env st).st).evs,
        res := (loadLocal env (loadRemote env st).st).res,
        st := (loadLocal env (loadRemote env st).st).st } := by
  unfold Reload
  rw [h]

lemma Reload_of_ok (env : Env) (st : YState)
    (h : (loadRemote env st).res = Except.ok ()) :
    Reload env st = loadRemote env st := by
  unfold Reload
  rw [h]

/-- The world of the C1 counterexample: the fetch succeeds with status 200
and a body that is a valid JSON object without a _meta section (so its parse
fails), and the local cache is unreadable. -/
def envC1 : Env :=
  { stat := .notFound, now := 0, fetch := some (200, .ok (some [])),
    readCache := .error (), writeOk := true }

/-- Claim C1: for every successfully fetched remote document whose parse
fails, Reload propagates the parse error immediately and does not attempt to
read or parse the local cache.  Counterexample: in envC1 the fetch succeeds
(status 200, readable body) and the body's parse fails with the missing-_meta
format error, yet Reload goes on to read the local cache (fsRead is among its
events) and returns the local cache's read error instead of the parse
error. -/
theorem claim_C1_counterexample :
    envC1.fetch = some (200, Except.ok (some [])) ∧
    (parseData emptyY (some [])).1 =
      Except.error "invalid data format: missing _meta section" ∧
    Ev.fsRead ∈ (Reload envC1 emptyY).evs ∧
    (Reload envC1 emptyY).res = Except.error "cache read error" :=
  ⟨rfl, rfl, by decide, rfl⟩

/-- Claim C1 (amended): Reload falls back to reading and parsing the local
cache on every failure of the remote load - transport error, bad status,
body read error, parse error, or cache write error alike - returning the
local load's result; only a fully successful remote load returns without
touching the local cache. -/
theorem claim_C1_amended (env : Env) (st : YState) :
    (∀ e, (loadRemote env st).res = Except.error e →
      Reload env st =
        { evs := (loadRemote env st).evs ++ (loadLocal env (loadRemote env st).st).evs,
          res := (loadLocal env (loadRemote env st).st).res,
          st := (loadLocal env (loadRemote env st).st).st } ∧
      Ev.fsRead ∈ (Reload env st).evs)
    ∧ ((loadRemote env st).res = Except.ok () →
      Reload env st = loadRemote env st ∧ Ev.fsRead ∉ (Reload env st).evs) := by
  constructor
  · intro e he
    refine ⟨Reload_of_error env st e he, ?_⟩
    rw [Reload_of_error env st e he]
    simp [loadLocal_evs]
  · intro hok
    refine ⟨Reload_of_ok env st hok, ?_⟩
    rw [Reload_of_ok env st hok]
    exact fsRead_not_loadRemote env st

/-- The world of the C1 witness: a transport error on fetch, with a readable
and parsable local cache. -/
def envT : Env :=
  { stat := .notFound, now := 0, fetch := none,
    readCache := .ok (some docMin), writeOk := true }

/-- Witness for the amended claim C1 at a concrete transport failure. -/
theorem claim_C1_witness :
    Reload envT emptyY =
      { evs := (loadRemote envT emptyY).evs ++ (loadLocal envT (loadRemote envT emptyY).st).evs,
        res := (loadLocal envT (loadRemote envT emptyY).st).res,
        st := (loadLocal envT (loadRemote envT emptyY).st).st } ∧
    Ev.fsRead ∈ (Reload envT emptyY).evs :=
  (claim_C1_amended envT emptyY).1 "transport error" rfl

/-- The world of the C3 counterexample: the fetch succeeds with a parsable
body, the cache write fails, and no local cache file is readable. -/
def envW : Env :=
  { stat := .notFound, now := 0, fetch := some (200, .ok (some docMin)),
    readCache := .error (), writeOk := false }

/-- Claim C3: when the remote fetch succeeds and the fetched bytes parse
successfully, a failure of the subsequent cache write is non-fatal and
Reload returns success.  Counterexample: in envW the fetch succeeds and the
body parses, yet the failed cache write sends Reload into the local-cache
fallback, which fails, so Reload returns an error. -/
theorem claim_C3_counterexample :
    envW.fetch = some (200, Except.ok (some docMin)) ∧
    (parseData emptyY (some docMin)).1 = Except.ok () ∧
    (Reload envW emptyY).res = Except.error "cache read error" :=
  ⟨rfl, rfl, rfl⟩

/-- Claim C3 (amended): when the remote fetch succeeds, the fetched bytes
parse successfully, and the cache write then fails, Reload treats the write
failure like any other remote-load failure and falls back to reading and
parsing the local cache; its overall result is that of the local load run on
the freshly parsed state. -/
theorem claim_C3_amended (env : Env) (st : YState) (d : GoData)
    (hf : env.fetch = some (200, Except.ok d))
    (hp : (parseData st d).1 = Except.ok ())
    (hw : env.writeOk = false) :
    Reload env st =
      { evs := [Ev.netGet, Ev.fsMkdir, Ev.fsWrite] ++ (loadLocal env (parseData st d).2).evs,
        res := (loadLocal env (parseData st d).2).res,
        st := (loadLocal env (parseData st d).2).st } := by
  have hpd : parseData st d = (Except.ok (), (parseData st d).2) := by
    rw [← hp]
  have hrem : loadRemote env st =
      { evs := [Ev.netGet, Ev.fsMkdir, Ev.fsWrite],
        res := Except.error "cache write error", st := (parseData st d).2 } := by
    unfold loadRemote
    rw [hf]
    dsimp only
    rw [if_neg (by decide : ¬ (200 : Nat) ≠ 200)]
    rw [hpd]
    dsimp only
    rw [hw]
    rfl
  have := Reload_of_error env st "cache write error" (by rw [hrem])
  rw [this, hrem]

/-- Witness for the amended claim C3 at the concrete world envW. -/
theorem claim_C3_witness :
    Reload envW emptyY =
      { evs := [Ev.netGet, Ev.fsMkdir, Ev.fsWrite] ++
          (loadLocal envW (parseData emptyY (some docMin)).2).evs,
        res := (loadLocal envW (parseData emptyY (some docMin)).2).res,
        st := (loadLocal envW (parseData emptyY (some docMin)).2).st } :=
  claim_C3_amended envW emptyY (some docMin) rfl rfl rfl

/-- A world whose cache stat fails with an error other than not-found. -/
def envS : Env :=
  { stat := .otherErr, now := 100, fetch := none,
    readCache := .error (), writeOk := true }

/-- Claim C4: every stat error other than not-found is treated as not-fresh
(cacheExpired true).  Counterexample: in envS the stat fails with a
non-not-found error, yet cacheExpired returns false, i.e. the cache is
treated as fresh. -/
theorem claim_C4_counterexample :
    envS.stat = StatResult.otherErr ∧ cacheExpired 5 envS = false :=
  ⟨rfl, rfl⟩

/-- Claim C4 (amended): the cache-freshness check never raises an error (it
is a total boolean); it reports the cache fresh (not expired) exactly when
either the stat succeeds and the modification time plus the TTL is not
before the current time, or the stat fails with an error other than
not-found; a not-found stat error always reports the cache as expired. -/
theorem claim_C4_amended (ttl : Int) (env : Env) :
    (cacheExpired ttl env = false ↔
      env.stat = StatResult.otherErr ∨
        ∃ m, env.stat = StatResult.ok m ∧ ¬ (m + ttl < env.now))
    ∧ (env.stat = StatResult.notFound → cacheExpired ttl env = true) := by
  cases hstat : env.stat with
  | notFound =>
    constructor
    · simp [cacheExpired, hstat]
    · intro _; simp [cacheExpired, hstat]
  | otherErr =>
    constructor
    · simp [cacheExpired, hstat]
    · intro h; simp [hstat] at h
  | ok m =>
    constructor
    · simp [cacheExpired, hstat]
    · intro h; simp [hstat] at h

/-- A world with a successfully statted, fresh cache file. -/
def envF : Env :=
  { stat := .ok 0, now := 0, fetch := none,
    readCache := .ok (some docMin), writeOk := true }

/-- Witness for the amended claim C4 at concrete worlds. -/
theorem claim_C4_witness :
    cacheExpired 5 envF = false ∧
    cacheExpired 5 { envF with stat := .notFound } = true :=
  ⟨(claim_C4_amended 5 envF).1.mpr (Or.inr ⟨0, rfl, by decide⟩),
   (claim_C4_amended 5 { envF with stat := .notFound }).2 rfl⟩

/-- The world of the C5 counterexample: every I/O the constructor tries will
happen (and fail), leaving its events visible. -/
def envB : Env :=
  { stat := .notFound, now := 0, fetch := none,
    readCache := .error (), writeOk := true }

/-- Options with a configured workgroup list and a present but empty url. -/
def optsB : List (String × String) := [("work_groups", "wg"), ("url", "")]

/-- Claim C5: a missing or empty service URL causes construction to fail
before any network or file access.  Counterexample: with optsB the url option
is present but empty; construction passes validation and goes on to perform
network and file access (a GET and a cache read appear among its events). -/
theorem claim_C5_counterexample :
    alook "url" optsB = some "" ∧
    Ev.netGet ∈ (NewY optsB 5 envB).evs ∧
    Ev.fsRead ∈ (NewY optsB 5 envB).evs :=
  ⟨rfl, by decide, by decide⟩

/-- Claim C5 (amended): a missing or empty workgroup list, or a missing (but
not merely empty) url option, causes construction to fail with a
configuration error before any network or file access (its event list is
empty); an empty-but-present url value passes validation. -/
theorem claim_C5_amended :
    (∀ (opts : List (String × String)) (ttl : Int) (env : Env),
      (alook "work_groups" opts = none ∨ alook "work_groups" opts = some "") →
      NewY opts ttl env =
        { evs := [], res := .error "yanductor backend workgroups are not configured" })
    ∧ (∀ (opts : List (String × String)) (ttl : Int) (env : Env) (w : String),
      alook "work_groups" opts = some w → w ≠ "" → alook "url" opts = none →
      NewY opts ttl env =
        { evs := [], res := .error "yanductor backend API URL is not configured" }) := by
  constructor
  · intro opts ttl env h
    rcases h with h | h
    · unfold NewY; rw [h]
    · unfold NewY; rw [h]; dsimp only; rw [if_pos rfl]
  · intro opts ttl env w hw hne hurl
    unfold NewY
    rw [hw]
    dsimp only
    rw [if_neg hne, hurl]

/-- Witness for the amended claim C5 at concrete configurations. -/
theorem claim_C5_witness :
    NewY [] 5 envB =
      { evs := [], res := .error "yanductor backend workgroups are not configured" } ∧
    NewY [("work_groups", "wg")] 5 envB =
      { evs := [], res := .error "yanductor backend API URL is not configured" } :=
  ⟨claim_C5_amended.1 [] 5 envB (Or.inl rfl),
   claim_C5_amended.2 [("work_groups", "wg")] 5 envB "wg" rfl (by decide) rfl⟩

lemma intercalate_go_eq (sep : String) :
    ∀ (as : List String) (acc : String),
      String.intercalate.go acc sep as = acc ++ sepJoin sep as := by
  intro as
  induction as with
  | nil =>
    intro acc
    simp [String.intercalate.go, sepJoin, String.append_empty]
  | cons a as ih =>
    intro acc
    rw [String.intercalate.go, ih, sepJoin]
    simp [String.append_assoc]

lemma goStringsJoin_eq_intercalate (sep : String) :
    ∀ ns, goStringsJoin ns sep = String.intercalate sep ns := by
  intro ns
  cases ns with
  | nil => rfl
  | cons a as =>
    rw [String.intercalate, intercalate_go_eq]
    induction as generalizing a with
    | nil => simp [goStringsJoin, sepJoin, String.append_empty]
    | cons b bs ih =>
      rw [show goStringsJoin (a :: b :: bs) sep = a ++ sep ++ goStringsJoin (b :: bs) sep from rfl]
      rw [ih b, sepJoin]
      simp [String.append_assoc]

/-- Claim C6: two configurations with the same set of workgroup names in any
order yield the same cache path (sorted/joined set).  Counterexample: the
names are joined in their configured order, without sorting, so the same set
in a different order yields a different path. -/
theorem claim_C6_counterexample :
    cacheFilename "d" ["a", "b"] ≠ cacheFilename "d" ["b", "a"] := by
  decide

/-- Claim C6 (amended): the cache file path is the deterministic function of
the cache directory and the workgroup names joined by "_" in their configured
order (not sorted): path.Join of the directory with
"yanductor_cache_" ++ names-intercalated-by-"_" ++ ".json"; any two
configurations whose name lists join to the same string yield the same
path. -/
theorem claim_C6_amended :
    (∀ (d : String) (ns : List String),
      cacheFilename d ns =
        pathJoin d ("yanductor_cache_" ++ String.intercalate "_" ns ++ ".json"))
    ∧ (∀ (d : String) (ns1 ns2 : List String),
      goStringsJoin ns1 "_" = goStringsJoin ns2 "_" →
      cacheFilename d ns1 = cacheFilename d ns2) := by
  constructor
  · intro d ns
    unfold cacheFilename
    rw [goStringsJoin_eq_intercalate]
  · intro d ns1 ns2 h
    unfold cacheFilename
    rw [h]

/-- Witness for the amended claim C6 at concrete inputs. -/
theorem claim_C6_witness :
    cacheFilename "d" ["a", "b"] =
      pathJoin "d" ("yanductor_cache_" ++ String.intercalate "_" ["a", "b"] ++ ".json") ∧
    cacheFilename "d" ["a", "b"] = cacheFilename "d" ["a", "b"] :=
  ⟨claim_C6_amended.1 "d" ["a", "b"],
   claim_C6_amended.2 "d" ["a", "b"] ["a", "b"] rfl⟩

/-- Claim C9: when the parse input is not valid JSON for a top-level mapping,
parseData returns an error with all four collections unchanged; when the
JSON decodes but the _meta section, or its hostvars table, is missing or
mis-shaped, parseData returns an error with all four collections already
reset to empty, losing the prior snapshot. -/
theorem claim_C9 :
    (∀ st : YState, parseData st none = (Except.error "invalid JSON", st))
    ∧ (∀ (st : YState) (raw : List (String × Json)),
      (∀ meta, alook "_meta" raw ≠ some (Json.obj meta)) →
      parseData st (some raw) =
        (Except.error "invalid data format: missing _meta section", emptyY))
    ∧ (∀ (st : YState) (raw meta : List (String × Json)),
      alook "_meta" raw = some (Json.obj meta) →
      (∀ hv, alook "hostvars" meta ≠ some (Json.obj hv)) →
      parseData st (some raw) =
        (Except.error "invalid data format: missing hostvars section", emptyY)) := by
  refine ⟨fun st => rfl, ?_, ?_⟩
  · intro st raw h
    unfold parseData
    dsimp only
    rcases hm : alook "_meta" raw with _ | j
    · rfl
    · cases j with
      | obj meta => exact absurd hm (h meta)
      | str s => rfl
      | num n => rfl
      | jbool b => rfl
      | null => rfl
      | arr xs => rfl
  · intro st raw meta hm h
    unfold parseData
    dsimp only
    rw [hm]
    dsimp only
    rcases hh : alook "hostvars" meta with _ | j
    · rfl
    · cases j with
      | obj hv => exact absurd hh (h hv)
      | str s => rfl
      | num n => rfl
      | jbool b => rfl
      | null => rfl
      | arr xs => rfl

/-- A state holding a previously loaded snapshot. -/
def stPrev : YState :=
  { hosts := [{ FQDN := "a.x", GroupID := "g1", DatacenterID := "dc1" }],
    groups := [{ Name := "g1", ParentID := "", Hosts := [] }],
    datacenters := [{ Name := "dc1" }],
    parentMap := [("g2", "g1")] }

/-- Witness for claim C9: invalid JSON leaves a non-empty prior snapshot
untouched, while a decoded document without _meta resets it to empty. -/
theorem claim_C9_witness :
    parseData stPrev none = (Except.error "invalid JSON", stPrev) ∧
    parseData stPrev (some []) =
      (Except.error "invalid data format: missing _meta section", emptyY) :=
  ⟨claim_C9.1 stPrev,
   claim_C9.2.1 stPrev [] (fun meta h => by simp [alook] at h)⟩

/-- Claim C10: for every TTL and a cache file whose last-modified time is
within the TTL window, Load stats the file and then only reads and parses
the local cache, performing no network call. -/
theorem claim_C10 (ttl : Int) (env : Env) (st : YState) (m : Int)
    (hstat : env.stat = StatResult.ok m) (hfresh : ¬ (m + ttl < env.now)) :
    Load ttl env st =
      { evs := Ev.fsStat :: (loadLocal env st).evs,
        res := (loadLocal env st).res, st := (loadLocal env st).st } ∧
    Ev.netGet ∉ (Load ttl env st).evs := by
  have hx : cacheExpired ttl env = false := by
    unfold cacheExpired
    rw [hstat]
    simp [hfresh]
  have hload : Load ttl env st =
      { evs := Ev.fsStat :: (loadLocal env st).evs,
        res := (loadLocal env st).res, st := (loadLocal env st).st } := by
    unfold Load
    rw [hx]
    rfl
  refine ⟨hload, ?_⟩
  rw [hload]
  simp [loadLocal_evs]

/-- Witness for claim C10 at a concrete fresh-cache world. -/
theorem claim_C10_witness :
    Load 5 envF emptyY =
      { evs := Ev.fsStat :: (loadLocal envF emptyY).evs,
        res := (loadLocal envF emptyY).res, st := (loadLocal envF emptyY).st } ∧
    Ev.netGet ∉ (Load 5 envF emptyY).evs :=
  claim_C10 5 envF emptyY 0 rfl (by decide)

/-- Claim C2: each Group's ParentID is taken from the fully-built
child-to-parent mapping, independent of traversal order, so for the Scenario
A document the groups always include g2 with ParentID "g1".  Counterexample:
traversing the very same document with g2 before g1 (Go map iteration order
is unspecified) yields g2 with ParentID "", because ParentID is read from
the parent map as built so far, before g1's children have been seen. -/
theorem claim_C2_counterexample :
    ((parseData emptyY (some docARev)).2.groups.map fun g => (g.Name, g.ParentID)) =
      [("g2", ""), ("g1", "")] := by
  rfl

/-- Claim C2 (amended): ParentID is read from the partially-built
child-to-parent mapping at the moment the group is processed, so the result
depends on the traversal order over top-level keys; for the Scenario A
document traversed with g1 before g2, the parse yields exactly the host
a.x in g1 with datacenter dc1, the groups g1 (ParentID "") and g2
(ParentID "g1"), and the datacenter list [dc1]. -/
theorem claim_C2_amended :
    (parseData emptyY (some docA)).2 =
      { hosts := [{ FQDN := "a.x", GroupID := "g1", DatacenterID := "dc1" }],
        groups := [{ Name := "g1", ParentID := "",
                     Hosts := [{ FQDN := "a.x", GroupID := "g1", DatacenterID := "dc1" }] },
                   { Name := "g2", ParentID := "g1", Hosts := [] }],
        datacenters := [{ Name := "dc1" }],
        parentMap := [("g2", "g1")] } := by
  rfl

lemma foldlPreserve {α β : Type} (f : β → α → β) (P : β → Prop)
    (hf : ∀ b a, P b → P (f b a)) :
    ∀ (l : List α) (b : β), P b → P (l.foldl f b) := by
  intro l
  induction l with
  | nil => intro b hb; exact hb
  | cons a t ih => intro b hb; exact ih (f b a) (hf b a hb)

/-- The well-formedness every produced Host record enjoys: its FQDN has an
object-shaped hostvars entry and its DatacenterID is that entry's "dc"
attribute (defaulting to ""). -/
def HostOK (hv : List (String × Json)) (h : Host) : Prop :=
  ∃ info, alook h.FQDN hv = some (Json.obj info) ∧ h.DatacenterID = dcOfHostInfo info

lemma processHost_hostOK (hv : List (String × Json)) (g : String)
    (acc : YState × List Host) (j : Json)
    (hacc : ∀ h ∈ acc.1.hosts, HostOK hv h) :
    ∀ h ∈ (processHost hv g acc j).1.hosts, HostOK hv h := by
  unfold processHost
  cases j with
  | str hostName =>
    dsimp only
    rcases hl : alook hostName hv with _ | jv
    · exact hacc
    · cases jv with
      | obj hostInfo =>
        dsimp only
        intro h hm
        rcases List.mem_append.mp hm with hold | hnew
        · exact hacc h hold
        · rcases List.mem_singleton.mp hnew with rfl
          exact ⟨hostInfo, hl, rfl⟩
      | str s => exact hacc
      | num n => exact hacc
      | jbool b => exact hacc
      | null => exact hacc
      | arr xs => exact hacc
  | num n => exact hacc
  | jbool b => exact hacc
  | null => exact hacc
  | arr xs => exact hacc
  | obj fields => exact hacc

lemma processGroup_preserve (hv : List (String × Json)) (P : YState → Prop)
    (hpm : ∀ (st : YState) (pm : List (String × String)),
      P st → P { st with parentMap := pm })
    (hgr : ∀ (st : YState) (gs : List Group), P st → P { st with groups := gs })
    (hhost : ∀ (g : String) (acc : YState × List Host) (j : Json),
      P acc.1 → P (processHost hv g acc j).1) :
    ∀ (st : YState) (entry : String × Json), P st → P (processGroup hv st entry) := by
  intro st entry hP
  unfold processGroup
  split
  · exact hP
  · split
    · dsimp only
      split
      · exact hgr _ _ (foldlPreserve _ (fun p => P p.1)
          (fun b a hb => hhost entry.1 b a hb) _ _ (hpm st _ hP))
      · exact hgr _ _ (hpm st _ hP)
    · exact hP

lemma parseData_ok_form (st : YState) (raw : List (String × Json))
    (hok : (parseData st (some raw)).1 = Except.ok ()) :
    ∃ meta hv, alook "_meta" raw = some (Json.obj meta) ∧
      alook "hostvars" meta = some (Json.obj hv) ∧
      parseData st (some raw) = (Except.ok (), raw.foldl (processGroup hv) emptyY) := by
  rcases hm : alook "_meta" raw with _ | j
  · exfalso
    have hp : parseData st (some raw) =
        (Except.error "invalid data format: missing _meta section", emptyY) := by
      unfold parseData
      dsimp only
      rw [hm]
    rw [hp] at hok
    exact absurd hok (by simp)
  · cases j with
    | obj meta =>
      rcases hh : alook "hostvars" meta with _ | jv
      · exfalso
        have hp : parseData st (some raw) =
            (Except.error "invalid data format: missing hostvars section", emptyY) := by
          unfold parseData
          dsimp only
          rw [hm]
          dsimp only
          rw [hh]
        rw [hp] at hok
        exact absurd hok (by simp)
      · cases jv with
        | obj hv =>
          refine ⟨meta, hv, rfl, hh, ?_⟩
          unfold parseData
          dsimp only
          rw [hm]
          dsimp only
          rw [hh]
        | str s =>
          exfalso
          have hp : parseData st (some raw) =
              (Except.error "invalid data format: missing hostvars section", emptyY) := by
            unfold parseData
            dsimp only
            rw [hm]
            dsimp only
            rw [hh]
          rw [hp] at hok
          exact absurd hok (by simp)
        | num n =>
          exfalso
          have hp : parseData st (some raw) =
              (Except.error "invalid data format: missing hostvars section", emptyY) := by
            unfold parseData
            dsimp only
            rw [hm]
            dsimp only
            rw [hh]
          rw [hp] at hok
          exact absurd hok (by simp)
        | jbool b =>
          exfalso
          have hp : parseData st (some raw) =
              (Except.error "invalid data format: missing hostvars section", emptyY) := by
            unfold parseData
            dsimp only
            rw [hm]
            dsimp only
            rw [hh]
          rw [hp] at hok
          exact absurd hok (by simp)
        | null =>
          exfalso
          have hp : parseData st (some raw) =
              (Except.error "invalid data format: missing hostvars section", emptyY) := by
            unfold parseData
            dsimp only
            rw [hm]
            dsimp only
            rw [hh]
          rw [hp] at hok
          exact absurd hok (by simp)
        | arr xs =>
          exfalso
          have hp : parseData st (some raw) =
              (Except.error "invalid data format: missing hostvars section", emptyY) := by
            unfold parseData
            dsimp only
            rw [hm]
            dsimp only
            rw [hh]
          rw [hp] at hok
          exact absurd hok (by simp)
    | str s =>
      exfalso
      have hp : parseData st (some raw) =
          (Except.error "invalid data format: missing _meta section", emptyY) := by
        unfold parseData
        dsimp only
        rw [hm]
      rw [hp] at hok
      exact absurd hok (by simp)
    | num n =>
      exfalso
      have hp : parseData st (some raw) =
          (Except.error "invalid data format: missing _meta section", emptyY) := by
        unfold parseData
        dsimp only
        rw [hm]
      rw [hp] at hok
      exact absurd hok (by simp)
    | jbool b =>
      exfalso
      have hp : parseData st (some raw) =
          (Except.error "invalid data format: missing _meta section", emptyY) := by
        unfold parseData
        dsimp only
        rw [hm]
      rw [hp] at hok
      exact absurd hok (by simp)
    | null =>
      exfalso
      have hp : parseData st (some raw) =
          (Except.error "invalid data format: missing _meta section", emptyY) := by
        unfold parseData
        dsimp only
        rw [hm]
      rw [hp] at hok
      exact absurd hok (by simp)
    | arr xs =>
      exfalso
      have hp : parseData st (some raw) =
          (Except.error "invalid data format: missing _meta section", emptyY) := by
        unfold parseData
        dsimp only
        rw [hm]
      rw [hp] at hok
      exact absurd hok (by simp)

lemma parse_hosts_ok (hv raw : List (String × Json)) :
    ∀ h ∈ (raw.foldl (processGroup hv) emptyY).hosts, HostOK hv h := by
  refine foldlPreserve (processGroup hv) (fun s => ∀ h ∈ s.hosts, HostOK hv h)
    (fun s e hs => processGroup_preserve hv (fun s => ∀ h ∈ s.hosts, HostOK hv h)
      ?_ ?_ ?_ s e hs) raw emptyY (by simp [emptyY])
  · intro s pm hi; exact hi
  · intro s gs hi; exact hi
  · intro g acc j hi; exact processHost_hostOK hv g acc j hi

/-- Claim C7: every produced Host record has an object-shaped hostvars entry
for its FQDN and its DatacenterID equals the string value of that entry's
"dc" attribute when present (empty string otherwise); a host name with no
hostvars entry produces no Host record; and given a well-formed _meta and
hostvars section the parse succeeds regardless of such skipped hosts. -/
theorem claim_C7 (st : YState) (raw meta hv : List (String × Json))
    (hmeta : alook "_meta" raw = some (Json.obj meta))
    (hhv : alook "hostvars" meta = some (Json.obj hv)) :
    (parseData st (some raw)).1 = Except.ok () ∧
    (∀ h ∈ (parseData st (some raw)).2.hosts,
      ∃ info, alook h.FQDN hv = some (Json.obj info) ∧
        h.DatacenterID = (match alook "dc" info with
          | some (Json.str s) => s
          | _ => "")) ∧
    (∀ name, alook name hv = none →
      ∀ h ∈ (parseData st (some raw)).2.hosts, h.FQDN ≠ name) := by
  have hpd : parseData st (some raw) =
      (Except.ok (), raw.foldl (processGroup hv) emptyY) := by
    unfold parseData
    dsimp only
    rw [hmeta]
    dsimp only
    rw [hhv]
  rw [hpd]
  refine ⟨rfl, ?_, ?_⟩
  · intro h hm
    rcases parse_hosts_ok hv raw h hm with ⟨info, hl, hdc⟩
    exact ⟨info, hl, hdc⟩
  · intro name hnone h hm heq
    rcases parse_hosts_ok hv raw h hm with ⟨info, hl, _⟩
    rw [heq, hnone] at hl
    cases hl

/-- Witness for claim C7 at the Scenario A document. -/
theorem claim_C7_witness :
    (parseData emptyY (some docA)).1 = Except.ok () ∧
    (∀ h ∈ (parseData emptyY (some docA)).2.hosts,
      ∃ info, alook h.FQDN [("a.x", Json.obj [("dc", Json.str "dc1")])] = some (Json.obj info) ∧
        h.DatacenterID = (match alook "dc" info with
          | some (Json.str s) => s
          | _ => "")) ∧
    (∀ name, alook name [("a.x", Json.obj [("dc", Json.str "dc1")])] = none →
      ∀ h ∈ (parseData emptyY (some docA)).2.hosts, h.FQDN ≠ name) :=
  claim_C7 emptyY docA
    [("hostvars", Json.obj [("a.x", Json.obj [("dc", Json.str "dc1")])])]
    [("a.x", Json.obj [("dc", Json.str "dc1")])] rfl rfl

lemma contains_iff (l : List Datacenter) (s : String) :
    contains l s = true ↔ s ∈ l.map Datacenter.Name := by
  induction l with
  | nil => simp [contains]
  | cons d rest ih =>
    by_cases h : d.Name = s
    · simp [contains, h]
    · simp [contains, h, ih, Ne.symm h]

lemma dedupF_concat (l : List String) (x : String) :
    dedupF (l ++ [x]) = insertS (dedupF l) x := by
  simp [dedupF, List.foldl_append]

lemma mem_insertS (acc : List String) (s x : String) :
    x ∈ insertS acc s ↔ x ∈ acc ∨ x = s := by
  unfold insertS
  by_cases h : s ∈ acc
  · rw [if_pos h]
    constructor
    · exact Or.inl
    · rintro (hx | rfl)
      · exact hx
      · exact h
  · rw [if_neg h]
    simp

lemma mem_foldl_insertS : ∀ (l acc : List String) (x : String),
    x ∈ l.foldl insertS acc ↔ x ∈ acc ∨ x ∈ l := by
  intro l
  induction l with
  | nil => intro acc x; simp
  | cons a t ih =>
    intro acc x
    rw [List.foldl_cons, ih, mem_insertS]
    simp [or_assoc]

lemma nodup_foldl_insertS : ∀ (l acc : List String), acc.Nodup → (l.foldl insertS acc).Nodup := by
  intro l
  induction l with
  | nil => intro acc h; exact h
  | cons a t ih =>
    intro acc h
    rw [List.foldl_cons]
    apply ih
    unfold insertS
    by_cases ha : a ∈ acc
    · rw [if_pos ha]; exact h
    · rw [if_neg ha]
      simp [List.nodup_append, h, ha]

lemma foldl_insertS_firstOcc : ∀ (l acc : List String),
    l.foldl insertS acc = acc ++ firstOccurrences (l.filter (fun b => decide (b ∉ acc))) := by
  intro l
  induction l with
  | nil => intro acc; simp [firstOccurrences]
  | cons a t ih =>
    intro acc
    rw [List.foldl_cons]
    by_cases ha : a ∈ acc
    · rw [show insertS acc a = acc from by unfold insertS; rw [if_pos ha]]
      rw [ih]
      have hfa : (a :: t).filter (fun b => decide (b ∉ acc)) =
          t.filter (fun b => decide (b ∉ acc)) := by
        simp [List.filter_cons, ha]
      rw [hfa]
    · rw [show insertS acc a = acc ++ [a] from by unfold insertS; rw [if_neg ha]]
      rw [ih]
      have hfa : (a :: t).filter (fun b => decide (b ∉ acc)) =
          a :: t.filter (fun b => decide (b ∉ acc)) := by
        simp [List.filter_cons, ha]
      rw [hfa, firstOccurrences]
      have hpred : ∀ b ∈ t, (decide (b ∉ acc ++ [a])) =
          (decide (b ≠ a) && decide (b ∉ acc)) := by
        intro b _
        by_cases h1 : b ∈ acc <;> by_cases h2 : b = a <;>
          simp [h1, h2, List.mem_append]
      have hfilters : t.filter (fun b => decide (b ∉ acc ++ [a])) =
          (t.filter (fun b => decide (b ∉ acc))).filter (fun b => decide (b ≠ a)) := by
        rw [List.filter_filter]
        exact List.filter_congr hpred
      rw [hfilters]
      simp

lemma dedupF_eq_firstOccurrences (l : List String) : dedupF l = firstOccurrences l := by
  have h := foldl_insertS_firstOcc l []
  simpa [dedupF] using h

/-- The invariant the datacenter list maintains throughout a parse: its names
are the left-to-right insert-if-absent deduplication of the produced hosts'
datacenter ids. -/
def InvDC (st : YState) : Prop :=
  st.datacenters.map Datacenter.Name = dedupF (st.hosts.map Host.DatacenterID)

lemma processHost_dc (hv : List (String × Json)) (g : String)
    (acc : YState × List Host) (j : Json) (hacc : InvDC acc.1) :
    InvDC (processHost hv g acc j).1 := by
  unfold processHost
  cases j with
  | str hostName =>
    dsimp only
    rcases hl : alook hostName hv with _ | jv
    · exact hacc
    · cases jv with
      | obj hostInfo =>
        dsimp only
        unfold InvDC at hacc ⊢
        dsimp only
        by_cases hc : contains acc.1.datacenters (dcOfHostInfo hostInfo)
        · rw [if_pos hc]
          simp only [List.map_append, List.map_cons, List.map_nil]
          rw [dedupF_concat, ← hacc]
          rw [show insertS (acc.1.datacenters.map Datacenter.Name) (dcOfHostInfo hostInfo) =
              acc.1.datacenters.map Datacenter.Name from by
            unfold insertS; rw [if_pos ((contains_iff _ _).mp hc)]]
        · rw [if_neg hc]
          simp only [List.map_append, List.map_cons, List.map_nil]
          rw [dedupF_concat, ← hacc]
          have hnm : dcOfHostInfo hostInfo ∉ acc.1.datacenters.map Datacenter.Name :=
            fun hmem => hc ((contains_iff _ _).mpr hmem)
          rw [show insertS (acc.1.datacenters.map Datacenter.Name) (dcOfHostInfo hostInfo) =
              acc.1.datacenters.map Datacenter.Name ++ [dcOfHostInfo hostInfo] from by
            unfold insertS; rw [if_neg hnm]]
      | str s => exact hacc
      | num n => exact hacc
      | jbool b => exact hacc
      | null => exact hacc
      | arr xs => exact hacc
  | num n => exact hacc
  | jbool b => exact hacc
  | null => exact hacc
  | arr xs => exact hacc
  | obj fields => exact hacc

lemma parse_dc (hv raw : List (String × Json)) :
    InvDC (raw.foldl (processGroup hv) emptyY) := by
  refine foldlPreserve (processGroup hv) InvDC
    (fun s e hs => processGroup_preserve hv InvDC ?_ ?_ ?_ s e hs) raw emptyY rfl
  · intro s pm hi; exact hi
  · intro s gs hi; exact hi
  · intro g acc j hi; exact processHost_dc hv g acc j hi

/-- Claim C8: after every successful parse, the datacenter names are exactly
the first-occurrence deduplication of the datacenter ids of the produced
hosts, in first-occurrence order, without duplicates ("" being an ordinary
name); membership in the datacenter list coincides with being some host's
datacenter id. -/
theorem claim_C8 (st : YState) (raw : List (String × Json))
    (hok : (parseData st (some raw)).1 = Except.ok ()) :
    ((parseData st (some raw)).2.datacenters.map Datacenter.Name) =
      firstOccurrences ((parseData st (some raw)).2.hosts.map Host.DatacenterID) ∧
    ((parseData st (some raw)).2.datacenters.map Datacenter.Name).Nodup ∧
    (∀ s, s ∈ (parseData st (some raw)).2.datacenters.map Datacenter.Name ↔
      s ∈ (parseData st (some raw)).2.hosts.map Host.DatacenterID) := by
  rcases parseData_ok_form st raw hok with ⟨meta, hv, hm, hh, hpd⟩
  rw [hpd]
  dsimp only
  have hinv := parse_dc hv raw
  unfold InvDC at hinv
  refine ⟨?_, ?_, ?_⟩
  · rw [hinv, dedupF_eq_firstOccurrences]
  · rw [hinv]
    exact nodup_foldl_insertS _ [] List.nodup_nil
  · intro s
    rw [hinv]
    unfold dedupF
    rw [mem_foldl_insertS]
    simp

/-- A document exercising deduplication and the "" datacenter name: h1 has no
"dc" attribute, h2 has "dc1", and h1 is listed twice. -/
def docB : List (String × Json) :=
  [("_meta", .obj [("hostvars", .obj [("h1", .obj []), ("h2", .obj [("dc", .str "dc1")])])]),
   ("g", .obj [("hosts", .arr [.str "h1", .str "h2", .str "h1"])])]

/-- Witness for claim C8 at a concrete successful parse. -/
theorem claim_C8_witness :
    ((parseData emptyY (some docB)).2.datacenters.map Datacenter.Name) =
      firstOccurrences ((parseData emptyY (some docB)).2.hosts.map Host.DatacenterID) ∧
    ((parseData emptyY (some docB)).2.datacenters.map Datacenter.Name).Nodup ∧
    (∀ s, s ∈ (parseData emptyY (some docB)).2.datacenters.map Datacenter.Name ↔
      s ∈ (parseData emptyY (some docB)).2.hosts.map Host.DatacenterID) :=
  claim_C8 emptyY docB rfl

end Yanductor
